import Mathlib

/-!
# nhudson/ecs — verification of `main.go`

A shallow embedding of the pure parts of `main.go` (batching, health
classification, cluster filtering, service lookup, report selection) and
theorems about them.

Modelling conventions
* Go `string` is `String`; the inputs considered are valid UTF-8, where
  byte-wise substring search and byte-wise comparison coincide with their
  code-point versions.
* Go `int`/`int64` values are `Int`; lengths and loop indices are `Nat`.  The
  running and desired counts of a service returned by the describe call are
  not negative; theorems that depend on it say so in a hypothesis.  In
  `chunk` every index is below `2 * len(list)`, far from the 64-bit limit, so
  no wrap-around is modelled there.
* The AWS SDK fills the pointer fields read by the code (`RunningCount`,
  `DesiredCount`, `Message`, ...) for every record it returns; they are
  modelled as plain values.
* Remote calls are parameters: the function receives what the call returned.
* A Go run-time panic is `none`.
-/

namespace Ecs

/-! ## Data model (the fields of the SDK records that `main.go` reads) -/

/-- The SDK record `ecs.ServiceEvent`; only `Message` is read. -/
structure ServiceEvent where
  Message : String
deriving DecidableEq, Repr

/-- The SDK record `ecs.Service`, restricted to the fields `main.go` reads. -/
structure Service where
  ServiceName : String
  Status : String
  RunningCount : Int
  DesiredCount : Int
  Events : List ServiceEvent
  TaskDefinition : String
deriving DecidableEq, Repr

/-- The Go zero value `var ecsService ecs.Service`. -/
def Service.zero : Service :=
  { ServiceName := "", Status := "", RunningCount := 0, DesiredCount := 0,
    Events := [], TaskDefinition := "" }

/-! ## Library functions used by `main.go` -/

/-- Go `strings.Contains(s, substr)`: `substr` occurs in `s` as a contiguous block. -/
def strings.Contains (s substr : String) : Bool :=
  decide (substr.toList <:+: s.toList)

/-- Go `strings.ToLower(s)`, which is `strings.Map(unicode.ToLower, s)`; the
Unicode case table `lower` is a parameter. -/
def strings.ToLower (lower : Char → Char) (s : String) : String :=
  String.mk (s.toList.map lower)

/-- The scanning loop of Go `strings.Split` for a non-empty separator: `cur`
holds, reversed, the characters of the segment being read; `skip` counts the
characters of an already recognised separator that are still to be passed. -/
def strings.splitLoop (sep : List Char) : List Char → List Char → Nat → List (List Char)
  | [], cur, _ => [cur.reverse]
  | _ :: rest, cur, skip + 1 => strings.splitLoop sep rest cur skip
  | c :: rest, cur, 0 =>
    if sep.isPrefixOf (c :: rest) then
      cur.reverse :: strings.splitLoop sep rest [] (sep.length - 1)
    else strings.splitLoop sep rest (c :: cur) 0

/-- Go `strings.Split(s, sep)`: with an empty separator the string is exploded
into its characters, otherwise it is cut at every occurrence of `sep`, found
from left to right. -/
def strings.Split (s sep : String) : List String :=
  if sep.toList = [] then s.toList.map (fun c => String.mk [c])
  else (strings.splitLoop sep.toList s.toList [] 0).map String.mk

/-- Go `sort.Strings`: sorts into increasing order.  Equal strings cannot be
told apart, so the result is the same for every sorting algorithm. -/
def sort.Strings (l : List String) : List String :=
  l.insertionSort (· ≤ ·)

/-- The colour table `colorstring.DefaultColors`. -/
def colorstring.DefaultColors : List (String × String) :=
  [("default", "39"), ("_default_", "49"),
   ("black", "30"), ("red", "31"), ("green", "32"), ("yellow", "33"),
   ("blue", "34"), ("magenta", "35"), ("cyan", "36"), ("light_gray", "37"),
   ("dark_gray", "90"), ("light_red", "91"), ("light_green", "92"),
   ("light_yellow", "93"), ("light_blue", "94"), ("light_magenta", "95"),
   ("light_cyan", "96"), ("white", "97"),
   ("_black_", "40"), ("_red_", "41"), ("_green_", "42"), ("_yellow_", "43"),
   ("_blue_", "44"), ("_magenta_", "45"), ("_cyan_", "46"), ("_light_gray_", "47"),
   ("_dark_gray_", "100"), ("_light_red_", "101"), ("_light_green_", "102"),
   ("_light_yellow_", "103"), ("_light_blue_", "104"), ("_light_magenta_", "105"),
   ("_light_cyan_", "106"), ("_white_", "107"),
   ("bold", "1"), ("dim", "2"), ("underline", "4"), ("blink_slow", "5"),
   ("blink_fast", "6"), ("invert", "7"), ("hidden", "8"),
   ("reset", "0"), ("reset_bold", "21")]

/-- A character of the class `[a-z0-9_-]` of the colorstring pattern, matched
case-insensitively (Go's case folding adds U+017F and U+212A). -/
def colorstring.isCodeChar (c : Char) : Bool :=
  c.isAlphanum || c == '_' || c == '-' || c.val == 0x17f || c.val == 0x212a

/-- What `Colorize.Color` writes for one match `[name]` of its pattern: the
escape sequence of a known colour code (and the flag `colored`), the text
itself for an unknown one. -/
def colorstring.replace (name : List Char) : List Char × Bool :=
  match colorstring.DefaultColors.lookup (String.mk name) with
  | some code => (['\x1b', '['] ++ code.toList ++ ['m'], true)
  | none => (['['] ++ name ++ [']'], false)

/-- The scan of `Colorize.Color` over the matches of `\[[a-z0-9_-]+\]`, as an
automaton: `out` is the text written so far, `colored` whether a known code was
met, `pending` the characters read after an open bracket that may still become
a match. -/
def colorstring.scan : List Char → List Char → Bool → Option (List Char) → List Char × Bool
  | [], out, colored, none => (out, colored)
  | [], out, colored, some buf => (out ++ '[' :: buf, colored)
  | c :: rest, out, colored, none =>
    if c = '[' then colorstring.scan rest out colored (some [])
    else colorstring.scan rest (out ++ [c]) colored none
  | c :: rest, out, colored, some buf =>
    if colorstring.isCodeChar c then colorstring.scan rest out colored (some (buf ++ [c]))
    else if c = ']' ∧ buf ≠ [] then
      colorstring.scan rest (out ++ (colorstring.replace buf).1)
        (colored || (colorstring.replace buf).2) none
    else if c = '[' then colorstring.scan rest (out ++ '[' :: buf) colored (some [])
    else colorstring.scan rest (out ++ '[' :: buf ++ [c]) colored none

/-- The function `colorstring.Color` of github.com/mitchellh/colorstring with
its default colorizer (`Reset: true`, not disabled): every `[name]` with a known
colour name becomes the escape sequence `ESC[<code>m`, other text is kept, and
`ESC[0m` is appended when a colour was written. -/
def colorstring.Color (v : String) : String :=
  let r := colorstring.scan v.toList [] false none
  String.mk (if r.2 then r.1 ++ ['\x1b', '[', '0', 'm'] else r.1)

/-! ## `chunk` -/

/-- The Go slice expression `list[low:high]`; out-of-range bounds panic. -/
def sliceExpr (list : List String) (low high : Nat) : Option (List String) :=
  if low ≤ high ∧ high ≤ list.length then some ((list.take high).drop low) else none

/-- The loop of `chunk`, `for index := 0; index < len(list); index += count`,
with a fuel bound.  `newList[newIdx] = ...` panics when `newIdx` is out of
range. -/
def chunkLoop (list : List String) (count : Nat) :
    Nat → Nat → List (List String) → Option (List (List String))
  | 0, index, newList => if index < list.length then none else some newList
  | fuel + 1, index, newList =>
    if index < list.length then
      let upperBound := if index + count > list.length then list.length else index + count
      let newIdx := index / count
      match sliceExpr list index upperBound with
      | none => none
      | some s =>
        if newIdx < newList.length then
          chunkLoop list count fuel (index + count) (newList.set newIdx s)
        else none
    else some newList

/-- The function `chunk(list, count)` for `count ≥ 0`.  `len(list)/count`
panics for `count = 0`; `make` fills the outer slice with nil slices. -/
def chunk (list : List String) (count : Nat) : Option (List (List String)) :=
  if count = 0 then none
  else chunkLoop list count list.length 0 (List.replicate (list.length / count + 1) [])

/-! ## Health classification -/

/-- The function `serviceUp`. -/
def serviceUp (service : Service) : Bool :=
  decide (service.DesiredCount = service.RunningCount) &&
    if h : service.Events.length > 0 then
      strings.Contains (service.Events.get ⟨0, h⟩).Message "has reached a steady state"
    else false

/-- The function `serviceStatus`. -/
def serviceStatus (service : Service) : String :=
  let status := colorstring.Color "[green][OK]"
  let up := serviceUp service
  let status := if !up then colorstring.Color "[red][KO]" else status
  let status :=
    if up && decide (service.RunningCount = 0) then colorstring.Color "[yellow][WARN]"
    else status
  status

/-- The function `serviceOk`. -/
def serviceOk (service : Service) : Bool :=
  strings.Contains (serviceStatus service) "OK"

/-! ## Lookup, enumeration and report selection -/

/-- The function `findService`; `describeServices` is the remote call, which
returned.  The result is the Go pair `(ecs.Service, error)`, the error given by
its message.  The diagnostic lines printed on the way are not modelled. -/
def findService (describeServices : String → List String → List Service)
    (cluster service : String) : Service × Option String :=
  let ecsService := Service.zero
  let runningServices := describeServices cluster [service]
  if h : runningServices.length = 0 then (ecsService, some "No service in cluster")
  else if runningServices.length > 1 then (ecsService, some "No service in cluster")
  else (runningServices.get ⟨0, by omega⟩, none)

/-- The function `shortTaskDefinitionName`; indexing outside the slice panics. -/
def shortTaskDefinitionName (taskDefinition : String) : Option String :=
  let splitTaskDefinition := strings.Split taskDefinition "/"
  let i : Int := (splitTaskDefinition.length : Int) - 1
  if 0 ≤ i then (strings.Split taskDefinition "/")[i.toNat]? else none

/-- The function `listClusters`; `clusterArns` is what the remote listing
returned. -/
def listClusters (lower : Char → Char) (clusterArns : List String) (filter : String) :
    List String :=
  let clusterNames :=
    if filter = "" then clusterArns
    else
      clusterArns.foldl
        (fun clusterNames cluster =>
          if strings.Contains (strings.ToLower lower cluster) (strings.ToLower lower filter)
          then clusterNames ++ [cluster] else clusterNames)
        []
  sort.Strings clusterNames

/-- The function `listServices`: `pages` are the pages of the paged listing,
`describeServices` the remote describe call.  The result holds the batches the
describe call was issued on, in call order, and the returned services. -/
def listServices (pages : List (List String))
    (describeServices : String → List String → List Service) (cluster : String) :
    Option (List (List String) × List Service) :=
  let serviceNames := pages.foldl (fun serviceNames page => serviceNames ++ page) []
  let serviceNames := sort.Strings serviceNames
  match chunk serviceNames 10 with
  | none => none
  | some batches =>
    some (batches.foldl
      (fun (st : List (List String) × List Service) services =>
        if services.length > 0 then
          (st.1 ++ [services], st.2 ++ describeServices cluster services)
        else st)
      ([], []))

/-- The body of the cluster loop of `executeMonitor` for one cluster: the header
line and the services handed to `printServiceDetails`, in order.  The header is
printed with `fmt.Printf(headerLine)`; cluster names hold no `%`, so what is
printed is the header line itself. -/
def executeMonitorBody (printAll : Bool) (clusterName : String) (services : List Service) :
    String × List Service :=
  let headerLine :=
    "--- CLUSTER: " ++ clusterName ++ " (" ++ toString services.length ++ " services)\n"
  if printAll = false then
    let displayedServices :=
      services.foldl
        (fun displayedServices svc =>
          if !serviceOk svc then displayedServices ++ [svc] else displayedServices)
        []
    if displayedServices.length > 0 then
      ("--- CLUSTER: " ++ clusterName ++ " (listing " ++ toString displayedServices.length
          ++ "/" ++ toString services.length ++ " services)\n",
        displayedServices)
    else (headerLine, services)
  else (headerLine, services)

/-- The function `executeMonitor`: `monitorCluster`, `filter` and `printAll` are
the command-line flags, `clusterArns` what the remote cluster listing returned,
`describeClusters` gives the names of the cluster records resolved for a list of
identifiers, `listServices` the services enumerated for a cluster.  The result
holds, per cluster, the header and the services printed. -/
def executeMonitor (lower : Char → Char) (monitorCluster filter : String) (printAll : Bool)
    (clusterArns : List String) (describeClusters : List String → List String)
    (listServices : String → List Service) : List (String × List Service) :=
  let clusterNames :=
    if monitorCluster = "" then listClusters lower clusterArns filter else [monitorCluster]
  (describeClusters clusterNames).map
    (fun cluster => executeMonitorBody printAll cluster (listServices cluster))

/-! ## Records used in the worked examples -/

/-- A service that is up: one task running, one desired, steady state. -/
def upService : Service :=
  { ServiceName := "web", Status := "ACTIVE", RunningCount := 1, DesiredCount := 1,
    Events := [{ Message := "(service web) has reached a steady state." }],
    TaskDefinition := "arn:aws:ecs:task-definition/app:7" }

/-- A service at steady state with three tasks running and three desired. -/
def steadyService : Service :=
  { ServiceName := "api", Status := "ACTIVE", RunningCount := 3, DesiredCount := 3,
    Events := [{ Message := "(service api) has reached a steady state." }],
    TaskDefinition := "arn:aws:ecs:task-definition/api:12" }

/-- The service S1 of the monitor scenario: running 2, desired 2, steady state. -/
def scenarioS1 : Service :=
  { ServiceName := "S1", Status := "ACTIVE", RunningCount := 2, DesiredCount := 2,
    Events := [{ Message := "(service S1) has reached a steady state." }],
    TaskDefinition := "arn:aws:ecs:task-definition/app:7" }

/-- The service S2 of the monitor scenario: running 0, desired 2, not steady. -/
def scenarioS2 : Service :=
  { ServiceName := "S2", Status := "ACTIVE", RunningCount := 0, DesiredCount := 2,
    Events := [{ Message := "service was unable to place a task" }],
    TaskDefinition := "arn:aws:ecs:task-definition/app:7" }

/-! ## `chunk`: what the loop computes -/

theorem sliceExpr_eq (list : List String) (K j : Nat) (hj : j * K < list.length) :
    sliceExpr list (j * K)
        (if j * K + K > list.length then list.length else j * K + K)
      = some ((list.drop (j * K)).take K) := by
  unfold sliceExpr
  split_ifs with h1 h2 h2
  · rw [List.drop_take]
    have hlen : (list.drop (j * K)).length ≤ list.length - j * K := by simp
    rw [List.take_of_length_le hlen, List.take_of_length_le (by omega)]
  · omega
  · rw [List.drop_take]; simp
  · omega

theorem chunkLoop_spec (list : List String) (K : Nat) (hK : 0 < K) :
    ∀ (fuel j : Nat) (newList : List (List String)),
      newList.length = list.length / K + 1 → list.length ≤ fuel + j * K →
      ∃ r, chunkLoop list K fuel (j * K) newList = some r ∧
        r.length = list.length / K + 1 ∧
        ∀ i, r[i]? = if j ≤ i ∧ i * K < list.length
                      then some ((list.drop (i * K)).take K) else newList[i]? := by
  intro fuel
  induction fuel with
  | zero =>
    intro j newList hlen hfuel
    refine ⟨newList, ?_, hlen, ?_⟩
    · simp only [chunkLoop]; rw [if_neg (by omega)]
    · intro i
      rw [if_neg]
      rintro ⟨h1, h2⟩
      have : j * K ≤ i * K := Nat.mul_le_mul_right K h1
      omega
  | succ fuel ih =>
    intro j newList hlen hfuel
    by_cases hidx : j * K < list.length
    · have hjlt : j < newList.length := by
        rw [hlen]
        have : j ≤ list.length / K := by
          rw [Nat.le_div_iff_mul_le hK]; omega
        omega
      have hstep : chunkLoop list K (fuel + 1) (j * K) newList
          = chunkLoop list K fuel ((j + 1) * K)
              (newList.set j ((list.drop (j * K)).take K)) := by
        simp only [chunkLoop]
        rw [if_pos hidx, sliceExpr_eq list K j hidx]
        simp only [Nat.mul_div_cancel _ hK]
        rw [if_pos hjlt, Nat.succ_mul]
      obtain ⟨r, hr, hrlen, hri⟩ := ih (j + 1) (newList.set j ((list.drop (j * K)).take K))
        (by simpa using hlen) (by rw [Nat.succ_mul]; omega)
      refine ⟨r, hstep.trans hr, hrlen, ?_⟩
      intro i
      rw [hri i, List.getElem?_set]
      by_cases hij : j = i
      · subst hij
        simp [hidx, hjlt]
      · by_cases h1 : j + 1 ≤ i ∧ i * K < list.length
        · rw [if_pos h1, if_pos ⟨by omega, h1.2⟩]
        · rw [if_neg h1, if_neg hij]
          rw [if_neg]
          rintro ⟨h2, h3⟩
          exact h1 ⟨by omega, h3⟩
    · refine ⟨newList, ?_, hlen, ?_⟩
      · simp only [chunkLoop]; rw [if_neg hidx]
      · intro i
        rw [if_neg]
        rintro ⟨h1, h2⟩
        have : j * K ≤ i * K := Nat.mul_le_mul_right K h1
        omega

/-- What `chunk` computes, as a closed formula. -/
theorem chunk_eq (list : List String) (K : Nat) (hK : 0 < K) :
    chunk list K = some ((List.range (list.length / K + 1)).map
      (fun i => (list.drop (i * K)).take K)) := by
  obtain ⟨r, hr, hrlen, hri⟩ := chunkLoop_spec list K hK list.length 0
    (List.replicate (list.length / K + 1) []) (by simp) (by omega)
  unfold chunk
  rw [if_neg (by omega)]
  rw [Nat.zero_mul] at hr
  rw [hr]
  congr 1
  apply List.ext_getElem?
  intro i
  rw [hri i]
  by_cases hi : i < list.length / K + 1
  · simp only [Nat.zero_le, true_and]
    rw [List.getElem?_map, List.getElem?_range hi]
    simp only [Option.map_some']
    split_ifs with h
    · rfl
    · rw [List.getElem?_replicate, if_pos hi]
      congr 1
      symm
      rw [List.drop_of_length_le (by omega)]
      simp
  · have h2 : ¬ i * K < list.length := by
      intro h
      have : i ≤ list.length / K := by rw [Nat.le_div_iff_mul_le hK]; omega
      omega
    rw [if_neg (by tauto)]
    rw [List.getElem?_eq_none (by simp; omega), List.getElem?_eq_none (by simp; omega)]

theorem flatten_windows (list : List String) (K : Nat) :
    ∀ n, ((List.range n).map (fun i => (list.drop (i * K)).take K)).flatten
      = list.take (n * K) := by
  intro n
  induction n with
  | zero => simp
  | succ n ih =>
    rw [List.range_succ, List.map_append, List.flatten_append, ih, Nat.succ_mul,
      List.take_add]
    simp

theorem flatten_filter_nonempty (batches : List (List String)) :
    (batches.filter (fun b => decide (b.length > 0))).flatten = batches.flatten := by
  induction batches with
  | nil => rfl
  | cons b bs ih =>
    cases b with
    | nil => simpa using ih
    | cons x xs => simp [List.filter_cons, ih]

theorem window_length (list : List String) (K i : Nat) :
    ((list.drop (i * K)).take K).length = min K (list.length - i * K) := by
  simp

/-- C1: for every list and every batch size `K > 0`, `chunk` returns, and the
batches it returns, concatenated in order, are the original list; the same holds
after the zero-length batches have been dropped, as `listServices` does. -/
theorem chunk_concat (list : List String) (K : Nat) (hK : 0 < K) :
    ∃ batches, chunk list K = some batches ∧
      batches.flatten = list ∧
      (batches.filter (fun b => decide (b.length > 0))).flatten = list := by
  have hcat : ((List.range (list.length / K + 1)).map
      (fun i => (list.drop (i * K)).take K)).flatten = list := by
    rw [flatten_windows]
    apply List.take_of_length_le
    have := Nat.lt_div_mul_add hK (a := list.length)
    rw [Nat.succ_mul]; omega
  refine ⟨_, chunk_eq list K hK, hcat, ?_⟩
  rw [flatten_filter_nonempty, hcat]

theorem chunk_concat_witness :
    ∃ batches, chunk ["a", "b", "c", "d", "e"] 2 = some batches ∧
      batches.flatten = ["a", "b", "c", "d", "e"] ∧
      (batches.filter (fun b => decide (b.length > 0))).flatten
        = ["a", "b", "c", "d", "e"] :=
  chunk_concat ["a", "b", "c", "d", "e"] 2 (by decide)

/-- C2: for every list of `N` strings and every batch size `K > 0`, `chunk`
returns `N / K + 1` batches, each of length at most `K`; every batch but the
last has exactly `K` elements and the last has `N mod K`, so the last batch is
empty exactly when `K` divides `N`, and for the empty list the single batch
returned is empty. -/
theorem chunk_lengths (list : List String) (K : Nat) (hK : 0 < K) :
    ∃ batches, chunk list K = some batches ∧
      batches.length = list.length / K + 1 ∧
      (∀ b ∈ batches, b.length ≤ K) ∧
      (∀ i, i < list.length / K → (batches[i]?).map List.length = some K) ∧
      (batches[list.length / K]?).map List.length = some (list.length % K) ∧
      (batches.getLast?.map List.length = some (list.length % K)) ∧
      (batches.getLast? = some [] ↔ K ∣ list.length) ∧
      (list = [] → batches = [[]]) := by
  have hget : ∀ i, i < list.length / K + 1 →
      ((List.range (list.length / K + 1)).map
        (fun i => (list.drop (i * K)).take K))[i]? = some ((list.drop (i * K)).take K) := by
    intro i hi
    rw [List.getElem?_map, List.getElem?_range hi]; rfl
  have hmod : list.length - list.length / K * K = list.length % K := by
    have := Nat.div_add_mod list.length K
    rw [Nat.mul_comm] at this
    omega
  have hlt := Nat.mod_lt list.length hK
  have hlast : ((List.range (list.length / K + 1)).map
        (fun i => (list.drop (i * K)).take K)).getLast?
      = some ((list.drop (list.length / K * K)).take K) := by
    rw [List.getLast?_eq_getElem?]
    simp
  refine ⟨_, chunk_eq list K hK, by simp, ?_, ?_, ?_, ?_, ?_, ?_⟩
  · intro b hb
    rw [List.mem_map] at hb
    obtain ⟨i, -, rfl⟩ := hb
    rw [window_length]; omega
  · intro i hi
    rw [hget i (by omega), Option.map_some', window_length]
    congr 1
    have h1 : (i + 1) * K ≤ list.length / K * K := Nat.mul_le_mul_right K hi
    have h2 : list.length / K * K ≤ list.length := Nat.div_mul_le_self _ _
    rw [Nat.succ_mul] at h1
    omega
  · rw [hget _ (by omega), Option.map_some', window_length, hmod]
    congr 1; omega
  · rw [hlast, Option.map_some', window_length, hmod]
    congr 1; omega
  · rw [hlast, Option.some_inj, ← List.length_eq_zero, window_length, hmod,
      Nat.dvd_iff_mod_eq_zero]
    omega
  · rintro rfl
    simp

theorem chunk_lengths_witness :
    ∃ batches, chunk ["a", "b", "c", "d"] 2 = some batches ∧
      batches.length = ["a", "b", "c", "d"].length / 2 + 1 ∧
      (∀ b ∈ batches, b.length ≤ 2) ∧
      (∀ i, i < ["a", "b", "c", "d"].length / 2 → (batches[i]?).map List.length = some 2) ∧
      (batches[["a", "b", "c", "d"].length / 2]?).map List.length
        = some (["a", "b", "c", "d"].length % 2) ∧
      (batches.getLast?.map List.length = some (["a", "b", "c", "d"].length % 2)) ∧
      (batches.getLast? = some [] ↔ 2 ∣ ["a", "b", "c", "d"].length) ∧
      (["a", "b", "c", "d"] = [] → batches = [[]]) :=
  chunk_lengths ["a", "b", "c", "d"] 2 (by decide)

/-! ## Health classification -/

theorem color_ok : colorstring.Color "[green][OK]" = "\x1b[32m[OK]\x1b[0m" := by decide

theorem color_ko : colorstring.Color "[red][KO]" = "\x1b[31m[KO]\x1b[0m" := by decide

theorem color_warn : colorstring.Color "[yellow][WARN]" = "\x1b[33m[WARN]\x1b[0m" := by decide

theorem serviceStatus_eq (s : Service) :
    serviceStatus s =
      if serviceUp s = true then
        if s.RunningCount = 0 then "\x1b[33m[WARN]\x1b[0m" else "\x1b[32m[OK]\x1b[0m"
      else "\x1b[31m[KO]\x1b[0m" := by
  unfold serviceStatus
  rw [color_ok, color_ko, color_warn]
  cases serviceUp s <;> by_cases h : s.RunningCount = 0 <;> simp [h]

/-- C3: `serviceUp` returns true exactly when the running count equals the
desired count, the service has at least one event, and the message of its first
event contains "has reached a steady state" as a contiguous block. -/
theorem serviceUp_iff (s : Service) :
    serviceUp s = true ↔
      (s.RunningCount = s.DesiredCount ∧
        ∃ e rest, s.Events = e :: rest ∧
          "has reached a steady state".toList <:+: e.Message.toList) := by
  unfold serviceUp strings.Contains
  cases hE : s.Events with
  | nil => simp
  | cons e rest =>
    simp only [List.length_cons, gt_iff_lt, Nat.zero_lt_succ, dite_true, Bool.and_eq_true,
      decide_eq_true_eq]
    constructor
    · rintro ⟨h1, h2⟩
      exact ⟨h1.symm, e, rest, rfl, h2⟩
    · rintro ⟨h1, e', rest', h2, h3⟩
      injection h2 with h4 h5
      subst h4
      exact ⟨h1.symm, h3⟩

/-- C4: for a service with non-negative counts `serviceStatus` returns the KO
tag exactly when `serviceUp` is false, the WARN tag exactly when `serviceUp` is
true and the running count is 0, and the OK tag exactly when `serviceUp` is true
and the running count is positive; the three tags are the coloured forms of
`[KO]`, `[WARN]` and `[OK]`, so exactly one of them is returned. -/
theorem serviceStatus_cases (s : Service) (hr : 0 ≤ s.RunningCount)
    (_hd : 0 ≤ s.DesiredCount) :
    (serviceStatus s = colorstring.Color "[red][KO]" ↔ serviceUp s = false) ∧
    (serviceStatus s = colorstring.Color "[yellow][WARN]" ↔
      (serviceUp s = true ∧ s.RunningCount = 0)) ∧
    (serviceStatus s = colorstring.Color "[green][OK]" ↔
      (serviceUp s = true ∧ 0 < s.RunningCount)) ∧
    (serviceStatus s = colorstring.Color "[red][KO]" ∨
      serviceStatus s = colorstring.Color "[yellow][WARN]" ∨
      serviceStatus s = colorstring.Color "[green][OK]") ∧
    colorstring.Color "[red][KO]" = "\x1b[31m[KO]\x1b[0m" ∧
    colorstring.Color "[yellow][WARN]" = "\x1b[33m[WARN]\x1b[0m" ∧
    colorstring.Color "[green][OK]" = "\x1b[32m[OK]\x1b[0m" := by
  rw [serviceStatus_eq, color_ok, color_ko, color_warn]
  have h1 : ("\x1b[33m[WARN]\x1b[0m" : String) ≠ "\x1b[31m[KO]\x1b[0m" := by decide
  have h2 : ("\x1b[32m[OK]\x1b[0m" : String) ≠ "\x1b[31m[KO]\x1b[0m" := by decide
  have h3 : ("\x1b[32m[OK]\x1b[0m" : String) ≠ "\x1b[33m[WARN]\x1b[0m" := by decide
  cases hup : serviceUp s
  · simp [h1.symm, h2.symm]
  · by_cases h0 : s.RunningCount = 0
    · simp [h0, h1, h3.symm]
    · have hpos : 0 < s.RunningCount := lt_of_le_of_ne hr (Ne.symm h0)
      simp [h0, h2, h3, hpos]

theorem serviceStatus_cases_witness :
    (serviceStatus upService = colorstring.Color "[red][KO]" ↔ serviceUp upService = false) ∧
    (serviceStatus upService = colorstring.Color "[yellow][WARN]" ↔
      (serviceUp upService = true ∧ upService.RunningCount = 0)) ∧
    (serviceStatus upService = colorstring.Color "[green][OK]" ↔
      (serviceUp upService = true ∧ 0 < upService.RunningCount)) ∧
    (serviceStatus upService = colorstring.Color "[red][KO]" ∨
      serviceStatus upService = colorstring.Color "[yellow][WARN]" ∨
      serviceStatus upService = colorstring.Color "[green][OK]") ∧
    colorstring.Color "[red][KO]" = "\x1b[31m[KO]\x1b[0m" ∧
    colorstring.Color "[yellow][WARN]" = "\x1b[33m[WARN]\x1b[0m" ∧
    colorstring.Color "[green][OK]" = "\x1b[32m[OK]\x1b[0m" :=
  serviceStatus_cases upService (by decide) (by decide)

/-- C5: for a service (its running count is, as in the data model, not
negative) `serviceOk` is true exactly when `serviceStatus` returns the OK tag,
which is exactly when `serviceUp` is true and the running count is greater than
0; the substring test for "OK" fails on the coloured KO tag and on the coloured
WARN tag and succeeds on the coloured OK tag. -/
theorem serviceOk_iff (s : Service) (hr : 0 ≤ s.RunningCount) :
    (serviceOk s = true ↔ serviceStatus s = colorstring.Color "[green][OK]") ∧
    (serviceOk s = true ↔ (serviceUp s = true ∧ 0 < s.RunningCount)) ∧
    strings.Contains (colorstring.Color "[red][KO]") "OK" = false ∧
    strings.Contains (colorstring.Color "[yellow][WARN]") "OK" = false ∧
    strings.Contains (colorstring.Color "[green][OK]") "OK" = true := by
  have hko : strings.Contains (colorstring.Color "[red][KO]") "OK" = false := by decide
  have hwarn : strings.Contains (colorstring.Color "[yellow][WARN]") "OK" = false := by decide
  have hok : strings.Contains (colorstring.Color "[green][OK]") "OK" = true := by decide
  have h1 : ("\x1b[33m[WARN]\x1b[0m" : String) ≠ "\x1b[32m[OK]\x1b[0m" := by decide
  have h2 : ("\x1b[31m[KO]\x1b[0m" : String) ≠ "\x1b[32m[OK]\x1b[0m" := by decide
  refine ⟨?_, ?_, hko, hwarn, hok⟩
  all_goals
    unfold serviceOk
    rw [color_ok, color_ko, color_warn] at *
    rw [serviceStatus_eq]
  · cases serviceUp s <;> by_cases h0 : s.RunningCount = 0 <;> simp [h0, hko, hwarn, hok, h1, h2]
  · cases serviceUp s <;> by_cases h0 : s.RunningCount = 0 <;>
      simp [h0, hko, hwarn, hok]
    exact lt_of_le_of_ne hr (Ne.symm h0)

theorem serviceOk_iff_witness :
    (serviceOk steadyService = true ↔
      serviceStatus steadyService = colorstring.Color "[green][OK]") ∧
    (serviceOk steadyService = true ↔
      (serviceUp steadyService = true ∧ 0 < steadyService.RunningCount)) ∧
    strings.Contains (colorstring.Color "[red][KO]") "OK" = false ∧
    strings.Contains (colorstring.Color "[yellow][WARN]") "OK" = false ∧
    strings.Contains (colorstring.Color "[green][OK]") "OK" = true :=
  serviceOk_iff steadyService (by decide)

/-! ## Lookup and short names -/

/-- C7: when the describe call returns no record `findService` fails, when it
returns more than one record it fails with the same error, and when it returns
exactly one record that record is returned with no error. -/
theorem findService_spec (describeServices : String → List String → List Service)
    (cluster service : String) :
    ((describeServices cluster [service]).length = 0 →
      findService describeServices cluster service
        = (Service.zero, some "No service in cluster")) ∧
    ((describeServices cluster [service]).length > 1 →
      findService describeServices cluster service
        = (Service.zero, some "No service in cluster")) ∧
    (∀ s, describeServices cluster [service] = [s] →
      findService describeServices cluster service = (s, none)) := by
  refine ⟨?_, ?_, ?_⟩
  · intro h
    unfold findService
    simp only [h, dite_true]
  · intro h
    unfold findService
    have h0 : ¬ (describeServices cluster [service]).length = 0 := by omega
    simp only [h0, dite_false, h, if_true]
  · intro s h
    unfold findService
    simp [h]

theorem splitLoop_slash :
    ∀ (s cur : List Char), ∃ pre x,
      strings.splitLoop ['/'] s cur 0 = pre ++ [x] ∧
      (('/' ∉ s ∧ x = cur.reverse ++ s) ∨ (∃ p, s = p ++ '/' :: x ∧ '/' ∉ x)) := by
  intro s
  induction s with
  | nil =>
    intro cur
    exact ⟨[], cur.reverse, by simp [strings.splitLoop], Or.inl ⟨by simp, by simp⟩⟩
  | cons c rest ih =>
    intro cur
    by_cases hc : c = '/'
    · subst hc
      obtain ⟨pre, x, hx, hcase⟩ := ih []
      refine ⟨cur.reverse :: pre, x, ?_, Or.inr ?_⟩
      · simp [strings.splitLoop, hx]
      · rcases hcase with ⟨hno, rfl⟩ | ⟨p, rfl, hno⟩
        · exact ⟨[], by simp, by simpa using hno⟩
        · exact ⟨'/' :: p, by simp, hno⟩
    · obtain ⟨pre, x, hx, hcase⟩ := ih (c :: cur)
      refine ⟨pre, x, ?_, ?_⟩
      · simp [strings.splitLoop, hx, Ne.symm hc]
      · rcases hcase with ⟨hno, rfl⟩ | ⟨p, rfl, hno⟩
        · exact Or.inl ⟨by simp [hno, Ne.symm hc], by simp⟩
        · exact Or.inr ⟨c :: p, by simp, hno⟩

/-- C8: `shortTaskDefinitionName` returns the last segment of its argument cut
at "/": the result has no "/", is a suffix of the argument, and the argument
either has no "/" and equals the result or ends with "/" followed by the result;
"arn:aws:ecs:task-definition/app:7" gives "app:7". -/
theorem shortTaskDefinitionName_spec :
    (∀ s : String, ∃ x : String,
      shortTaskDefinitionName s = some x ∧
      (strings.Split s "/").getLast? = some x ∧
      '/' ∉ x.toList ∧
      strings.Contains x "/" = false ∧
      x.toList <:+ s.toList ∧
      (('/' ∉ s.toList ∧ s = x) ∨ ∃ p : String, s = p ++ "/" ++ x)) ∧
    shortTaskDefinitionName "arn:aws:ecs:task-definition/app:7" = some "app:7" := by
  refine ⟨?_, by decide⟩
  intro s
  obtain ⟨pre, x, hx, hcase⟩ := splitLoop_slash s.toList []
  have hsplit : strings.Split s "/" = pre.map String.mk ++ [String.mk x] := by
    unfold strings.Split
    rw [if_neg (by decide)]
    show List.map String.mk (strings.splitLoop ['/'] s.toList [] 0) = _
    rw [hx]; simp
  have hnox : '/' ∉ x := by
    rcases hcase with ⟨hno, rfl⟩ | ⟨p, -, hno⟩
    · simpa using hno
    · exact hno
  refine ⟨String.mk x, ?_, ?_, hnox, ?_, ?_, ?_⟩
  · unfold shortTaskDefinitionName
    simp only [hsplit]
    simp
  · rw [hsplit]; simp
  · unfold strings.Contains
    simp only [decide_eq_false_iff_not]
    intro h
    apply hnox
    apply h.subset
    simp
  · rcases hcase with ⟨-, rfl⟩ | ⟨p, hp, -⟩
    · simp
    · show x <:+ s.toList
      rw [hp]
      exact ⟨p ++ ['/'], by simp⟩
  · rcases hcase with ⟨hno, rfl⟩ | ⟨p, hp, -⟩
    · left
      exact ⟨hno, by simp⟩
    · right
      refine ⟨String.mk p, ?_⟩
      apply String.ext
      simp only [String.data_append]
      show s.toList = p ++ ['/'] ++ x
      rw [hp]; simp

/-! ## Cluster and service enumeration, report selection -/

theorem foldl_append_if {α : Type} (p : α → Bool) (l : List α) :
    ∀ acc : List α,
      l.foldl (fun acc a => if p a then acc ++ [a] else acc) acc = acc ++ l.filter p := by
  induction l with
  | nil => intro acc; simp
  | cons a l ih =>
    intro acc
    rw [List.foldl_cons, ih]
    by_cases h : p a = true <;> simp [h]

theorem sort_Strings_sorted (l : List String) : (sort.Strings l).Sorted (· ≤ ·) :=
  List.sorted_insertionSort (· ≤ ·) l

theorem sort_Strings_perm (l : List String) : (sort.Strings l).Perm l :=
  List.perm_insertionSort (· ≤ ·) l

/-- C6: `listClusters` returns an ascending list that is a rearrangement of the
listed identifiers whose lower-cased form contains the lower-cased filter (each
kept as often as it was listed); with the empty filter it is a rearrangement of
all of them; filter "prod" keeps "Production-East" and "PRODWEST" and drops
"staging". -/
theorem listClusters_spec :
    (∀ (lower : Char → Char) (clusterArns : List String) (filter : String),
      (listClusters lower clusterArns filter).Sorted (· ≤ ·) ∧
      (listClusters lower clusterArns filter).Perm
        (clusterArns.filter (fun cluster =>
          strings.Contains (strings.ToLower lower cluster) (strings.ToLower lower filter))) ∧
      (∀ x, x ∈ listClusters lower clusterArns filter ↔
        (x ∈ clusterArns ∧ (strings.ToLower lower filter).toList
          <:+: (strings.ToLower lower x).toList))) ∧
    (∀ (lower : Char → Char) (clusterArns : List String),
      (listClusters lower clusterArns "").Perm clusterArns) ∧
    listClusters Char.toLower ["staging", "Production-East", "PRODWEST"] "prod"
      = ["PRODWEST", "Production-East"] := by
  have hperm : ∀ (lower : Char → Char) (clusterArns : List String) (filter : String),
      (listClusters lower clusterArns filter).Perm
        (clusterArns.filter (fun cluster =>
          strings.Contains (strings.ToLower lower cluster) (strings.ToLower lower filter))) := by
    intro lower clusterArns filter
    unfold listClusters
    refine (sort_Strings_perm _).trans ?_
    by_cases hf : filter = ""
    · subst hf
      rw [if_pos rfl]
      have : (fun cluster => strings.Contains (strings.ToLower lower cluster)
          (strings.ToLower lower "")) = fun _ => true := by
        funext cluster
        simp [strings.Contains, strings.ToLower]
      rw [this, List.filter_true]
    · rw [if_neg hf, foldl_append_if]
      simp
  refine ⟨fun lower clusterArns filter => ⟨sort_Strings_sorted _, hperm _ _ _, ?_⟩, ?_, ?_⟩
  · intro x
    rw [(hperm lower clusterArns filter).mem_iff, List.mem_filter]
    simp [strings.Contains]
  · intro lower clusterArns
    unfold listClusters
    rw [if_pos rfl]
    exact sort_Strings_perm _
  · have h : (["staging", "Production-East", "PRODWEST"].foldl
        (fun clusterNames cluster =>
          if strings.Contains (strings.ToLower Char.toLower cluster)
              (strings.ToLower Char.toLower "prod")
          then clusterNames ++ [cluster] else clusterNames) [])
        = ["Production-East", "PRODWEST"] := by decide
    unfold listClusters
    rw [if_neg (by decide), h]
    simp [sort.Strings, List.insertionSort, List.orderedInsert, String.le_iff_toList_le]
    decide

theorem executeMonitorBody_eq (printAll : Bool) (name : String) (S : List Service) :
    executeMonitorBody printAll name S =
      if printAll = false ∧ 0 < (S.filter (fun s => !serviceOk s)).length then
        ("--- CLUSTER: " ++ name ++ " (listing "
            ++ toString (S.filter (fun s => !serviceOk s)).length
            ++ "/" ++ toString S.length ++ " services)\n",
          S.filter (fun s => !serviceOk s))
      else ("--- CLUSTER: " ++ name ++ " (" ++ toString S.length ++ " services)\n", S) := by
  unfold executeMonitorBody
  simp only [foldl_append_if, List.nil_append]
  cases printAll
  · by_cases h : 0 < (S.filter (fun s => !serviceOk s)).length
    · simp only [if_true, gt_iff_lt, h, and_self]
    · simp only [if_true, gt_iff_lt, h, and_false, if_false]
  · simp

/-- C9: with show-all disabled `executeMonitor` prints, for every cluster with
service list `S` of `N` services, the services of `S` for which `serviceOk` is
false, in their order in `S`, under the header "listing M/N services" when there
are `M > 0` of them, and all of `S` under the plain "(N services)" header when
there are none; with show-all enabled it prints all of `S` under the plain
header.  For S1 (running 2, desired 2, steady state) and S2 (running 0, desired
2, not steady) only S2 is listed, under "listing 1/2 services". -/
theorem executeMonitor_spec :
    (∀ (lower : Char → Char) (monitorCluster filter : String) (clusterArns : List String)
        (describeClusters : List String → List String)
        (listServices : String → List Service),
      executeMonitor lower monitorCluster filter false clusterArns describeClusters
          listServices =
        (describeClusters
            (if monitorCluster = "" then listClusters lower clusterArns filter
              else [monitorCluster])).map
          (fun cluster =>
            if 0 < ((listServices cluster).filter (fun s => !serviceOk s)).length then
              ("--- CLUSTER: " ++ cluster ++ " (listing "
                  ++ toString ((listServices cluster).filter (fun s => !serviceOk s)).length
                  ++ "/" ++ toString (listServices cluster).length ++ " services)\n",
                (listServices cluster).filter (fun s => !serviceOk s))
            else
              ("--- CLUSTER: " ++ cluster ++ " (" ++ toString (listServices cluster).length
                  ++ " services)\n",
                listServices cluster))) ∧
    (∀ (lower : Char → Char) (monitorCluster filter : String) (clusterArns : List String)
        (describeClusters : List String → List String)
        (listServices : String → List Service),
      executeMonitor lower monitorCluster filter true clusterArns describeClusters
          listServices =
        (describeClusters
            (if monitorCluster = "" then listClusters lower clusterArns filter
              else [monitorCluster])).map
          (fun cluster =>
            ("--- CLUSTER: " ++ cluster ++ " (" ++ toString (listServices cluster).length
                ++ " services)\n",
              listServices cluster))) ∧
    executeMonitor Char.toLower "demo" "" false [] (fun clusters => clusters)
        (fun _ => [scenarioS1, scenarioS2])
      = [("--- CLUSTER: demo (listing 1/2 services)\n", [scenarioS2])] := by
  refine ⟨?_, ?_, by decide⟩
  · intro lower monitorCluster filter clusterArns describeClusters listServices
    unfold executeMonitor
    apply List.map_congr_left
    intro cluster _
    rw [executeMonitorBody_eq]
    simp
  · intro lower monitorCluster filter clusterArns describeClusters listServices
    unfold executeMonitor
    apply List.map_congr_left
    intro cluster _
    rw [executeMonitorBody_eq]
    simp

theorem foldl_pages (pages : List (List String)) :
    ∀ acc : List String,
      pages.foldl (fun serviceNames page => serviceNames ++ page) acc
        = acc ++ pages.flatten := by
  induction pages with
  | nil => intro acc; simp
  | cons p ps ih => intro acc; rw [List.foldl_cons, ih]; simp

theorem foldl_describe (describe : List String → List Service)
    (batches : List (List String)) :
    ∀ st : List (List String) × List Service,
      batches.foldl
        (fun (st : List (List String) × List Service) services =>
          if services.length > 0 then (st.1 ++ [services], st.2 ++ describe services)
          else st) st
      = (st.1 ++ batches.filter (fun b => decide (b.length > 0)),
         st.2 ++ ((batches.filter (fun b => decide (b.length > 0))).map describe).flatten) := by
  induction batches with
  | nil => intro st; simp
  | cons b bs ih =>
    intro st
    rw [List.foldl_cons, ih]
    by_cases h : b.length > 0
    · simp [h, List.filter_cons]
    · simp [h, List.filter_cons]

/-- C10: `listServices` returns; every describe call it issues is on a batch of
at least 1 and at most 10 identifiers; the batches, concatenated in call order,
are the sorted identifier list, an ascending rearrangement of the identifiers
accumulated from the pages; the result is the concatenation of the answers; for
an empty identifier list no call is issued and the result is empty. -/
theorem listServices_spec (pages : List (List String))
    (describeServices : String → List String → List Service) (cluster : String) :
    ∃ calls result,
      listServices pages describeServices cluster = some (calls, result) ∧
      (∀ b ∈ calls, 1 ≤ b.length ∧ b.length ≤ 10) ∧
      calls.flatten = sort.Strings pages.flatten ∧
      calls.flatten.Sorted (· ≤ ·) ∧
      calls.flatten.Perm pages.flatten ∧
      result = (calls.map (describeServices cluster)).flatten ∧
      (pages.flatten = [] → calls = [] ∧ result = []) := by
  have hnames : pages.foldl (fun serviceNames page => serviceNames ++ page) []
      = pages.flatten := by
    rw [foldl_pages]; simp
  have hchunk := chunk_eq (sort.Strings pages.flatten) 10 (by decide)
  have hflat : ((List.range ((sort.Strings pages.flatten).length / 10 + 1)).map
      (fun i => ((sort.Strings pages.flatten).drop (i * 10)).take 10)).flatten
        = sort.Strings pages.flatten := by
    rw [flatten_windows]
    apply List.take_of_length_le
    omega
  have hls : listServices pages describeServices cluster
      = some (((List.range ((sort.Strings pages.flatten).length / 10 + 1)).map
            (fun i => ((sort.Strings pages.flatten).drop (i * 10)).take 10)).filter
              (fun b => decide (b.length > 0)),
          ((((List.range ((sort.Strings pages.flatten).length / 10 + 1)).map
            (fun i => ((sort.Strings pages.flatten).drop (i * 10)).take 10)).filter
              (fun b => decide (b.length > 0))).map (describeServices cluster)).flatten) := by
    unfold listServices
    simp only [hnames, hchunk, foldl_describe, List.nil_append]
  refine ⟨_, _, hls, ?_, ?_, ?_, ?_, rfl, ?_⟩
  · intro b hb
    simp only [List.mem_filter, List.mem_map, decide_eq_true_eq] at hb
    obtain ⟨⟨i, -, rfl⟩, hpos⟩ := hb
    refine ⟨hpos, ?_⟩
    rw [window_length]; omega
  · rw [flatten_filter_nonempty, hflat]
  · rw [flatten_filter_nonempty, hflat]
    exact sort_Strings_sorted _
  · rw [flatten_filter_nonempty, hflat]
    exact sort_Strings_perm _
  · intro hempty
    rw [hempty]
    simp [sort.Strings]

end Ecs
